import Mathlib

/-!
Verification of the tinyslam_app visual-feature pipeline against its
natural-language specification.

The repository's only source file, `src/main.rs`, implements the host loop:
camera ingestion, the per-tick upload of the decoded RGBA frame into the GPU
input texture, the keyframe trigger (`frame_count == 100`), and the window
resize handling.  The GPU feature-extraction core (`OrbProgram` of the
`orbslam_gpu` crate: smoothing, integral image, corner detection, BRIEF
descriptors, matching, keyframe snapshot lifecycle) is declared and called by
`main.rs` but is not part of this repository's sources; those components are
modelled here from the specification's contracts, and every such definition is
marked `Modelled from the spec:` in its doc comment.

Machine integers of the host (`u32`) are embedded as `Nat` with explicit
reduction modulo `2 ^ 32` where Rust's wrapping arithmetic applies.
-/

namespace Orb

/-! ## Host loop, embedded from `src/main.rs` -/

/-- `wgpu::Extent3d`, the size descriptor used for images. -/
structure Extent3d where
  width : Nat
  height : Nat
  depth_or_array_layers : Nat
  deriving DecidableEq, Repr

/-- From `src/main.rs` line 163/262: the tick counter `frame_count : u32`
starts at 0 and is incremented once at the end of every redraw tick; the
increment wraps modulo `2 ^ 32` (Rust `u32` arithmetic).
`frameCount t` is the value of `frame_count` at the start of 0-indexed tick
`t`. -/
def frameCount : Nat → Nat
  | 0 => 0
  | t + 1 => (frameCount t + 1) % 2 ^ 32

/-- From `src/main.rs` line 213: the per-tick parameter
`OrbParams { record_keyframe: frame_count == 100 }`. -/
def recordKeyframeParam (t : Nat) : Bool := frameCount t == 100

/-- From `src/main.rs` lines 174-177: the `WindowEvent::Resized` handler sets
`config.width = new_size.width.max(1)` and
`config.height = new_size.height.max(1)`. -/
def resizedSurfaceConfig (w h : Nat) : Nat × Nat := (Nat.max w 1, Nat.max h 1)

/-- From `src/main.rs` line 127: the decoded frame buffer
`vec![0u8; (frame_width * frame_height * 4) as usize]`; the length is computed
in `u32` arithmetic before the cast. -/
def frameBufferLen (frame_width frame_height : Nat) : Nat :=
  (frame_width * frame_height * 4) % 2 ^ 32

/-- From `src/main.rs` lines 138-142: `output_image_size`, built from the
window size, which was itself set to the camera frame size (lines 129-134). -/
def outputImageSize (frame_width frame_height : Nat) : Extent3d :=
  ⟨frame_width, frame_height, 1⟩

/-- The per-tick `queue.write_texture` call of `src/main.rs` lines 196-210:
source buffer, `bytes_per_row` of the layout, and copy extent. -/
structure ImageUpload where
  bufferLen : Nat
  bytes_per_row : Nat
  extent : Extent3d
  deriving DecidableEq, Repr

/-- From `src/main.rs` lines 196-210: each redraw tick uploads the decoded
frame buffer with `bytes_per_row: 4 * frame_width` (u32 arithmetic) over the
full `output_image_size` extent; this is the only image input handed to the
ORB pipeline per tick. -/
def writeTextureUpload (frame_width frame_height : Nat) : ImageUpload :=
  { bufferLen := frameBufferLen frame_width frame_height
    bytes_per_row := (4 * frame_width) % 2 ^ 32
    extent := outputImageSize frame_width frame_height }

/-- `OrbConfig` as used at `src/main.rs` lines 150-154. -/
structure OrbConfig where
  max_features : Nat
  max_matches : Nat
  image_size : Extent3d
  deriving DecidableEq, Repr

/-- From `src/main.rs` lines 150-154: the configuration the host constructs
the pipeline with. -/
def mainOrbConfig (frame_width frame_height : Nat) : OrbConfig :=
  { max_features := 1 <<< 14
    max_matches := 1 <<< 14
    image_size := outputImageSize frame_width frame_height }

/-! ## Descriptors and Hamming distance

Descriptors are fixed-width bit vectors, embedded as `Nat` bit patterns. -/

/-- Fuel-indexed bit count; structural in the fuel so that it evaluates by
kernel reduction.  `popcountFuel f n` is the number of set bits of `n`
provided `n ≤ f`. -/
def popcountFuel : Nat → Nat → Nat
  | 0, _ => 0
  | fuel + 1, n => if n = 0 then 0 else n % 2 + popcountFuel fuel (n / 2)

/-- Number of set bits of a natural number. -/
def popcount (n : Nat) : Nat := popcountFuel n n

/-- Hamming distance between two descriptors: popcount of their XOR
(spec §4.5, glossary). -/
def hammingDist (a b : Nat) : Nat := popcount (a ^^^ b)

/-! ## Matcher, modelled from the spec (§4.5)

The Matcher is part of the `orbslam_gpu` core that is absent from `src/`. -/

/-- Modelled from the spec: the Matcher's best-match scan (`orbslam_gpu`
core, absent from `src/`).  `bestFrom d i refs` scans the reference
descriptors `refs` (whose first element has absolute index `i`) and returns
`some (index, distance)` of the minimum Hamming distance to the query
descriptor `d`; on equal distances the smaller reference index wins, making
the selection deterministic. -/
def bestFrom (d : Nat) (i : Nat) : List Nat → Option (Nat × Nat)
  | [] => none
  | r :: rs =>
    match bestFrom d (i + 1) rs with
    | none => some (i, hammingDist d r)
    | some (j, dj) =>
      if hammingDist d r ≤ dj then some (i, hammingDist d r) else some (j, dj)

/-- Modelled from the spec: "for every valid current-frame descriptor,
compute Hamming distance (popcount of XOR) against every valid descriptor in
the Keyframe Snapshot; select the minimum-distance reference index as the
best match" (§4.5). -/
def bestRef (d : Nat) (refs : List Nat) : Option (Nat × Nat) := bestFrom d 0 refs

/-- A putative match: query index, reference index, Hamming distance
(spec §3, "Match"). -/
structure MatchEntry where
  query : Nat
  ref : Nat
  dist : Nat
  deriving DecidableEq, Repr

/-- The output order of the Match list (spec §4.5): ascending distance, ties
broken by ascending query index. -/
def matchRel (a b : MatchEntry) : Prop :=
  a.dist < b.dist ∨ (a.dist = b.dist ∧ a.query ≤ b.query)

instance : DecidableRel matchRel := fun a b => by
  unfold matchRel; infer_instance

instance : IsTotal MatchEntry matchRel :=
  ⟨by intro a b; unfold matchRel; omega⟩

instance : IsTrans MatchEntry matchRel :=
  ⟨by intro a b c; unfold matchRel; omega⟩

/-- Modelled from the spec: one candidate best match per valid query
descriptor (§4.5). -/
def matchCandidates (descs refs : List Nat) : List MatchEntry :=
  descs.enum.filterMap fun qd =>
    match bestRef qd.2 refs with
    | none => none
    | some (r, dist) => some ⟨qd.1, r, dist⟩

/-- Modelled from the spec: "Output Match list is truncated at `max_matches`,
ordered by ascending distance, ties broken by query index ascending" (§4.5). -/
def matcherOutput (max_matches : Nat) (descs refs : List Nat) : List MatchEntry :=
  (List.insertionSort matchRel (matchCandidates descs refs)).take max_matches

/-! ## Corner detector truncation, modelled from the spec (§4.3) -/

/-- A keypoint: integer pixel coordinate and corner-response score
(spec §3, "Keypoint"). -/
structure Corner where
  x : Nat
  y : Nat
  score : Nat
  deriving DecidableEq, Repr

/-- The retention priority of the Corner Detector's truncation (spec §4.3):
higher score first, ties broken by lexicographically smaller coordinate. -/
def cornerPriority (a b : Corner) : Prop :=
  b.score < a.score ∨
    (a.score = b.score ∧ (a.x < b.x ∨ (a.x = b.x ∧ a.y ≤ b.y)))

instance : DecidableRel cornerPriority := fun a b => by
  unfold cornerPriority; infer_instance

instance : IsTotal Corner cornerPriority :=
  ⟨by intro a b; unfold cornerPriority; omega⟩

instance : IsTrans Corner cornerPriority :=
  ⟨by intro a b c; unfold cornerPriority; omega⟩

/-- Modelled from the spec: "If the number of surviving corners exceeds
`max_features`, retain the highest-scoring subset ... stable top-K by score,
ties broken by coordinate" (§4.3).  The survivors of non-maximum suppression
are ranked by `cornerPriority` and the list is truncated at capacity. -/
def selectTopK (max_features : Nat) (survivors : List Corner) : List Corner :=
  (List.insertionSort cornerPriority survivors).take max_features

/-- The kept corners dominate every dropped survivor under the documented
score/coordinate priority. -/
def topKDominates (keptL survivors : List Corner) : Prop :=
  ∀ a ∈ keptL, ∀ b ∈ survivors, b ∉ keptL → cornerPriority a b

/-! ## Integral image builder, modelled from the spec (§4.2) -/

/-- Modelled from the spec: one Hillis-Steele pass "adding values from
neighbors at doubling offsets" (§4.2), along one dimension. -/
def scanPass (a : Nat → Nat) (off : Nat) : Nat → Nat :=
  fun i => a i + if off ≤ i then a (i - off) else 0

/-- `k` doubling-offset passes: pass `p` uses offset `2 ^ p`. -/
def scanIter (a : Nat → Nat) : Nat → Nat → Nat
  | 0 => a
  | k + 1 => scanPass (scanIter a k) (2 ^ k)

/-- Modelled from the spec: the parallel prefix-sum over a line of `n`
samples, using `⌈log2 n⌉` doubling-offset passes (§4.2). -/
def hillisSteeleScan (n : Nat) (a : Nat → Nat) : Nat → Nat :=
  scanIter a (Nat.clog 2 n)

/-- Modelled from the spec: the Integral Image Builder (§4.2; `orbslam_gpu`
core, absent from `src/`): prefix-sum passes along rows of the `w × h`
blurred image, then along columns.  Sample values accumulate in `Nat`,
matching the contract "accumulate in a range wide enough to hold
width×height×max-sample-value without overflow". -/
def integralImage (w h : Nat) (img : Nat → Nat → Nat) : Nat → Nat → Nat :=
  fun x y =>
    hillisSteeleScan h (fun y2 => hillisSteeleScan w (fun x2 => img x2 y2) x) y

/-- The brute-force summed-area table: sum of all source values at
coordinates `≤ (x, y)` componentwise. -/
def bruteForceSAT (img : Nat → Nat → Nat) (x y : Nat) : Nat :=
  ∑ x2 ∈ Finset.range (x + 1), ∑ y2 ∈ Finset.range (y + 1), img x2 y2

/-! ## Descriptor builder, modelled from the spec (§4.4) -/

/-- Whether a sample offset from a keypoint lands inside the `w × h` image. -/
def sampleInBounds (w h : Nat) (kp : Nat × Nat) (off : Int × Int) : Bool :=
  decide (0 ≤ (kp.1 : Int) + off.1 ∧ (kp.1 : Int) + off.1 < (w : Int) ∧
          0 ≤ (kp.2 : Int) + off.2 ∧ (kp.2 : Int) + off.2 < (h : Int))

/-- Intensity sample at a (bounds-checked) offset from a keypoint. -/
def sampleAt (img : Nat → Nat → Nat) (kp : Nat × Nat) (off : Int × Int) : Nat :=
  img ((kp.1 : Int) + off.1).toNat ((kp.2 : Int) + off.2).toNat

/-- Little-endian bit packing of comparison outcomes into one descriptor
word. -/
def packBits : List Bool → Nat
  | [] => 0
  | b :: rest => (if b then 1 else 0) + 2 * packBits rest

/-- Modelled from the spec: the BRIEF descriptor of one keypoint (§4.4;
`orbslam_gpu` core, absent from `src/`): a fixed pattern of pixel-pair
offsets, bit `i` set iff the first sample of pair `i` is greater than the
second; keypoints whose pattern would read outside the image get the zero
sentinel descriptor. -/
def briefDescriptor (w h : Nat) (img : Nat → Nat → Nat)
    (pattern : List ((Int × Int) × (Int × Int))) (kp : Nat × Nat) : Nat :=
  if pattern.all
      (fun pr => sampleInBounds w h kp pr.1 && sampleInBounds w h kp pr.2) then
    packBits (pattern.map
      (fun pr => decide (sampleAt img kp pr.2 < sampleAt img kp pr.1)))
  else 0

/-- The descriptor owed to slot `i` of the output buffer. -/
def descriptorAt (w h : Nat) (img : Nat → Nat → Nat)
    (pattern : List ((Int × Int) × (Int × Int))) (kps : List (Nat × Nat))
    (i : Nat) : Nat :=
  briefDescriptor w h img pattern (kps.getD i (0, 0))

/-- Pointwise update of the preallocated descriptor buffer. -/
def updateBuf (buf : Nat → Nat) (i v : Nat) : Nat → Nat :=
  fun j => if j = i then v else buf j

/-- Modelled from the spec: the Descriptor Builder's parallel pass (§4.4;
`orbslam_gpu` core, absent from `src/`).  Each work item `i` of the schedule
writes keypoint `i`'s descriptor into its disjoint, pre-indexed slot; the
schedule order models the unordered execution of the parallel units. -/
def writeDescriptors (w h : Nat) (img : Nat → Nat → Nat)
    (pattern : List ((Int × Int) × (Int × Int))) (kps : List (Nat × Nat)) :
    List Nat → (Nat → Nat) → (Nat → Nat)
  | [], buf => buf
  | i :: rest, buf =>
    writeDescriptors w h img pattern kps rest
      (updateBuf buf i (descriptorAt w h img pattern kps i))

/-! ## Orchestrator: construction and keyframe lifecycle, modelled from the
spec (§4.6) -/

/-- Modelled from the spec: `OrbProgram::init` (`orbslam_gpu` core, absent
from `src/`): "malformed configuration (zero-sized image, zero capacities) is
rejected at construction time" (§4.6).  Construction yields the immutable
configuration and the initial (empty) keyframe snapshot. -/
def orbInit (config : OrbConfig) : Option (OrbConfig × List Nat) :=
  if config.max_features = 0 ∨ config.max_matches = 0 ∨
      config.image_size.width = 0 ∨ config.image_size.height = 0 then
    none
  else
    some (config, [])

/-- Per-tick input at the orchestrator's match/snapshot boundary: the current
frame's valid descriptor list (produced by the Describe stage) and the host's
"record keyframe now" flag. -/
structure TickIn where
  descs : List Nat
  record : Bool
  deriving DecidableEq, Repr

/-- Per-tick observable output: the reference descriptor set the Matcher
read, and the Match list. -/
structure TickOut where
  refUsed : List Nat
  matchList : List MatchEntry
  deriving DecidableEq, Repr

/-- Modelled from the spec: one orchestrator tick (§4.6; `orbslam_gpu` core,
absent from `src/`).  On a record command, the keyframe snapshot is replaced
wholesale by the current descriptor list after the Describe stage and before
the Match stage; the Matcher then reads the (old or newly recorded) complete
snapshot. -/
def orbRunTick (max_matches : Nat) (keyframe : List Nat) (inp : TickIn) :
    List Nat × TickOut :=
  let kf := if inp.record then inp.descs else keyframe
  (kf, ⟨kf, matcherOutput max_matches inp.descs kf⟩)

/-- The orchestrator run over a sequence of ticks, threading the keyframe
snapshot. -/
def orbRunTrace (max_matches : Nat) (keyframe : List Nat) :
    List TickIn → List TickOut
  | [] => []
  | inp :: rest =>
    (orbRunTick max_matches keyframe inp).2 ::
      orbRunTrace max_matches (orbRunTick max_matches keyframe inp).1 rest

/-- The keyframe snapshot after a sequence of ticks. -/
def keyframeAfter (max_matches : Nat) (keyframe : List Nat) :
    List TickIn → List Nat
  | [] => keyframe
  | inp :: rest =>
    keyframeAfter max_matches (orbRunTick max_matches keyframe inp).1 rest

/-- Every output in the list saw exactly the reference descriptor set `kf` —
a complete snapshot, never a mix. -/
def allRefsEq (outs : List TickOut) (kf : List Nat) : Prop :=
  ∀ o ∈ outs, o.refUsed = kf

/-- Minimum of two naturals (local spelling, kept first-order for the
arithmetic tactics). -/
def minN (a b : Nat) : Nat := if a ≤ b then a else b

/-! ## Helper lemmas -/

theorem frameCount_mod (t : Nat) : frameCount t = t % 2 ^ 32 := by
  induction t with
  | zero => rfl
  | succ t ih => rw [frameCount, ih]; omega

theorem popcountFuel_eq_zero_iff (fuel : Nat) :
    ∀ n : Nat, n ≤ fuel → (popcountFuel fuel n = 0 ↔ n = 0) := by
  induction fuel with
  | zero => intro n hn; interval_cases n; simp [popcountFuel]
  | succ fuel ih =>
    intro n hn
    rw [popcountFuel]
    by_cases h0 : n = 0
    · simp [h0]
    · simp only [h0, if_false, iff_false]
      intro hc
      have h1 : n % 2 = 0 := by omega
      have h2 : popcountFuel fuel (n / 2) = 0 := by omega
      have h3 : n / 2 ≤ fuel := by omega
      have h4 := (ih (n / 2) h3).mp h2
      omega

theorem popcount_eq_zero_iff (n : Nat) : popcount n = 0 ↔ n = 0 :=
  popcountFuel_eq_zero_iff n n (Nat.le_refl n)

theorem hammingDist_self (a : Nat) : hammingDist a a = 0 := by
  rw [hammingDist, Nat.xor_self]
  rfl

theorem hammingDist_eq_zero_iff (a b : Nat) : hammingDist a b = 0 ↔ a = b := by
  rw [hammingDist, popcount_eq_zero_iff, Nat.xor_eq_zero]

theorem bestFrom_of_mem (d : Nat) :
    ∀ (l : List Nat) (i : Nat), d ∈ l →
      bestFrom d i l = some (i + l.indexOf d, 0) := by
  intro l
  induction l with
  | nil => intro i h; cases h
  | cons r rs ih =>
    intro i hm
    by_cases hr : r = d
    · cases h : bestFrom d (i + 1) rs with
      | none => simp [bestFrom, h, hr, hammingDist_self, List.indexOf_cons_self]
      | some p =>
        cases p with
        | mk j dj =>
          simp [bestFrom, h, hr, hammingDist_self, List.indexOf_cons_self]
    · have hm2 : d ∈ rs := by
        cases hm with
        | head => exact absurd rfl hr
        | tail _ h => exact h
      have hih := ih (i + 1) hm2
      have hnz : hammingDist d r ≠ 0 := by
        rw [Ne, hammingDist_eq_zero_iff]
        intro h; exact hr h.symm
      have hnle : ¬ hammingDist d r ≤ 0 := by omega
      have hidx : (r :: rs).indexOf d = (rs.indexOf d) + 1 := by
        simp [List.indexOf_cons_ne _ hr]
      simp only [bestFrom, hih]
      rw [if_neg hnle, hidx]
      have harith : i + 1 + rs.indexOf d = i + (rs.indexOf d + 1) := by omega
      rw [harith]

theorem indexOf_le_of_get :
    ∀ (L : List Nat) (q : Nat) (h : q < L.length),
      L.indexOf (L.get ⟨q, h⟩) ≤ q := by
  intro L
  induction L with
  | nil => intro q h; exact absurd h (by simp)
  | cons a l ih =>
    intro q h
    cases q with
    | zero => simp [List.indexOf_cons_self]
    | succ q =>
      have hget : (a :: l).get ⟨q + 1, h⟩ = l.get ⟨q, by simpa using h⟩ := rfl
      rw [hget]
      by_cases ha : a = l.get ⟨q, by simpa using h⟩
      · rw [List.indexOf_cons_eq l ha]
        omega
      · rw [List.indexOf_cons_ne l ha]
        have := ih q (by simpa using h)
        omega

/-! ## Claim theorems -/

/-- Claim C9 (amended): the tick counter `frame_count` starts at 0 and is
incremented by 1 modulo `2 ^ 32` per redraw tick (it is a wrapping `u32`),
and the host passes `record_keyframe = true` exactly on the ticks whose
counter value `t % 2 ^ 32` equals 100 — i.e. tick 100 and, should the run
last that long, again every `2 ^ 32` ticks. -/
theorem record_keyframe_at_100_mod (t : Nat) :
    frameCount t = t % 2 ^ 32 ∧
    (recordKeyframeParam t = true ↔ t % 2 ^ 32 = 100) := by
  refine ⟨frameCount_mod t, ?_⟩
  rw [recordKeyframeParam, frameCount_mod, beq_iff_eq]

/-- Claim C9, counterexample to the claim as stated: because `frame_count`
is a wrapping `u32`, the tick `2 ^ 32 + 100` — a tick other than tick 100 —
is also passed `record_keyframe = true`, so the flag is not true only at
tick 100 and the keyframe is not recorded on exactly one tick of an
unbounded run. -/
theorem record_keyframe_wrap_cx :
    recordKeyframeParam (2 ^ 32 + 100) = true ∧ (2 ^ 32 + 100 : Nat) ≠ 100 := by
  constructor
  · rw [recordKeyframeParam, frameCount_mod]
    decide
  · decide

/-- Claim C10: on every `WindowEvent::Resized`, the surface is reconfigured
with `width = max(reported width, 1)` and `height = max(reported height, 1)`,
so the configured dimensions are never zero. -/
theorem resized_surface_nonzero (w h : Nat) :
    resizedSurfaceConfig w h = (Nat.max w 1, Nat.max h 1) ∧
    (resizedSurfaceConfig w h).1 ≠ 0 ∧ (resizedSurfaceConfig w h).2 ≠ 0 := by
  refine ⟨rfl, ?_, ?_⟩ <;> simp [resizedSurfaceConfig]

/-- Claim C1 (amended): matching a descriptor set against itself yields, for
every valid query index `q`, a best match at Hamming distance 0 whose
reference index is the smallest index holding a descriptor identical to the
query's — an index `≤ q`, and `q` itself whenever the descriptors are
pairwise distinct.  (The claim as stated, reference index always `q`, fails
when a duplicate descriptor occurs before `q`; see the counterexample.) -/
theorem matcher_self_match (L : List Nat) (q : Nat) (hq : q < L.length) :
    bestRef (L.get ⟨q, hq⟩) L = some (L.indexOf (L.get ⟨q, hq⟩), 0) ∧
    L.indexOf (L.get ⟨q, hq⟩) ≤ q := by
  constructor
  · have hb := bestFrom_of_mem (L.get ⟨q, hq⟩) L 0 (L.get_mem q hq)
    rw [bestRef, hb, Nat.zero_add]
  · exact indexOf_le_of_get L q hq

/-- Claim C1, witness: the descriptor set `[3, 5]`, query index 1. -/
theorem matcher_self_match_w :
    bestRef 5 [3, 5] = some (1, 0) ∧ (1 : Nat) ≤ 1 :=
  matcher_self_match [3, 5] 1 (by decide)

/-- Claim C1, counterexample to the claim as stated: in the descriptor set
`[7, 7]` (two identical descriptors — e.g. two keypoints over identical
image patches), the best match for query index 1 is reference index 0, not
1, although its Hamming distance is 0. -/
theorem matcher_self_match_cx :
    bestRef (([7, 7] : List Nat).get ⟨1, by decide⟩) [7, 7] ≠ some (1, 0) ∧
    bestRef (([7, 7] : List Nat).get ⟨1, by decide⟩) [7, 7] = some (0, 0) := by
  decide

/-- Claim C5: construction of the pipeline succeeds exactly for
configurations with positive capacities and positive image dimensions; in
particular `max_features = 0` or a zero image dimension is rejected at
construction time.  (Once constructed, every per-tick operation of the model
— `orbRunTick` — is a total function, matching "no per-tick operation is
expected to fail once constructed".) -/
theorem orb_init_validation (c : OrbConfig) :
    (orbInit c).isSome = true ↔
      0 < c.max_features ∧ 0 < c.max_matches ∧
      0 < c.image_size.width ∧ 0 < c.image_size.height := by
  unfold orbInit
  split
  · next hz =>
      simp only [Option.isSome_none, Bool.false_eq_true, false_iff]
      omega
  · next hz =>
      simp only [Option.isSome_some, true_iff]
      omega

/-- Claim C6: for every tick (every descriptor/reference input), the Match
list has at most `max_matches` entries and is ordered by ascending Hamming
distance, entries of equal distance ordered by ascending query index. -/
theorem matcher_output_shape (max_matches : Nat) (descs refs : List Nat) :
    (matcherOutput max_matches descs refs).length ≤ max_matches ∧
    (matcherOutput max_matches descs refs).Pairwise
      (fun a b => a.dist < b.dist ∨ (a.dist = b.dist ∧ a.query ≤ b.query)) := by
  constructor
  · simp only [matcherOutput, List.length_take]
    exact Nat.min_le_left _ _
  · have hs : List.Sorted matchRel
        (List.insertionSort matchRel (matchCandidates descs refs)) :=
      List.sorted_insertionSort matchRel _
    exact List.Pairwise.sublist (List.take_sublist _ _) hs

/-- Claim C8: each redraw tick uploads exactly the decoded frame buffer of
`width * height * 4` bytes, with row stride `4 * width` bytes, over the full
extent, which is precisely the `image_size` the ORB pipeline was configured
with (from `src/main.rs` lines 127, 150-154 and 196-210). -/
theorem upload_matches_image_size (w h : Nat) (hh : 0 < h)
    (hfit : w * h * 4 < 2 ^ 32) :
    (writeTextureUpload w h).bufferLen = w * h * 4 ∧
    (writeTextureUpload w h).bytes_per_row = 4 * w ∧
    (writeTextureUpload w h).extent = (mainOrbConfig w h).image_size ∧
    (mainOrbConfig w h).image_size.width = w ∧
    (mainOrbConfig w h).image_size.height = h := by
  have hle : 4 * w ≤ w * h * 4 := by
    calc 4 * w = w * 1 * 4 := by ring
      _ ≤ w * h * 4 := Nat.mul_le_mul_right 4 (Nat.mul_le_mul_left w hh)
  refine ⟨?_, ?_, rfl, rfl, rfl⟩
  · show (w * h * 4) % 2 ^ 32 = w * h * 4
    exact Nat.mod_eq_of_lt hfit
  · show (4 * w) % 2 ^ 32 = 4 * w
    exact Nat.mod_eq_of_lt (by omega)

/-- Claim C8, witness: a 640 × 480 camera frame. -/
theorem upload_matches_image_size_w :
    (writeTextureUpload 640 480).bufferLen = 640 * 480 * 4 ∧
    (writeTextureUpload 640 480).bytes_per_row = 4 * 640 ∧
    (writeTextureUpload 640 480).extent = (mainOrbConfig 640 480).image_size ∧
    (mainOrbConfig 640 480).image_size.width = 640 ∧
    (mainOrbConfig 640 480).image_size.height = 480 :=
  upload_matches_image_size 640 480 (by decide) (by decide)

/-- Claim C3: when the surviving corners outnumber `max_features`, the kept
list has exactly `max_features` entries, all drawn from the survivors, and
each kept corner dominates every dropped survivor under the documented
priority (higher score first, ties broken by lexicographically smaller
coordinate).  The selection is a pure function of the survivor list, hence
deterministic for a fixed input. -/
theorem corner_truncation (K : Nat) (survivors : List Corner)
    (h : K < survivors.length) :
    (selectTopK K survivors).length = K ∧
    selectTopK K survivors ⊆ survivors ∧
    topKDominates (selectTopK K survivors) survivors := by
  refine ⟨?_, ?_, ?_⟩
  · simp only [selectTopK, List.length_take, List.length_insertionSort]
    omega
  · intro a ha
    have ha2 : a ∈ List.insertionSort cornerPriority survivors :=
      List.take_subset _ _ ha
    exact (List.mem_insertionSort cornerPriority).mp ha2
  · intro a ha b hb hbn
    have hbs : b ∈ List.insertionSort cornerPriority survivors :=
      (List.mem_insertionSort cornerPriority).mpr hb
    have hsorted : List.Sorted cornerPriority
        (List.insertionSort cornerPriority survivors) :=
      List.sorted_insertionSort cornerPriority survivors
    have hsplit :=
      List.take_append_drop K (List.insertionSort cornerPriority survivors)
    rw [← hsplit] at hsorted
    have hpw := (List.pairwise_append.mp hsorted).2.2
    have hbd : b ∈ (List.insertionSort cornerPriority survivors).drop K := by
      have hbm : b ∈ (List.insertionSort cornerPriority survivors).take K ++
          (List.insertionSort cornerPriority survivors).drop K := by
        rw [hsplit]; exact hbs
      rcases List.mem_append.mp hbm with h1 | h2
      · exact absurd h1 hbn
      · exact h2
    exact hpw a ha b hbd

/-- Claim C3, witness: `max_features = 1` against two survivors. -/
theorem corner_truncation_w :
    (selectTopK 1 [Corner.mk 5 5 10, Corner.mk 2 2 7]).length = 1 ∧
    selectTopK 1 [Corner.mk 5 5 10, Corner.mk 2 2 7] ⊆
      [Corner.mk 5 5 10, Corner.mk 2 2 7] ∧
    topKDominates (selectTopK 1 [Corner.mk 5 5 10, Corner.mk 2 2 7])
      [Corner.mk 5 5 10, Corner.mk 2 2 7] :=
  corner_truncation 1 [Corner.mk 5 5 10, Corner.mk 2 2 7] (by decide)

theorem orbRunTrace_append (m : Nat) (kf : List Nat) (a b : List TickIn) :
    orbRunTrace m kf (a ++ b) =
      orbRunTrace m kf a ++ orbRunTrace m (keyframeAfter m kf a) b := by
  induction a generalizing kf with
  | nil => rfl
  | cons i is ih => simp [orbRunTrace, keyframeAfter, ih]

theorem orbRunTrace_length (m : Nat) (kf : List Nat) (l : List TickIn) :
    (orbRunTrace m kf l).length = l.length := by
  induction l generalizing kf with
  | nil => rfl
  | cons i is ih => simp [orbRunTrace, ih]

theorem orbRunTrace_const (m : Nat) (kf : List Nat) (l : List TickIn)
    (hl : ∀ p ∈ l, p.record = false) :
    allRefsEq (orbRunTrace m kf l) kf := by
  induction l generalizing kf with
  | nil => intro o ho; cases ho
  | cons i is ih =>
    intro o ho
    have hrec : i.record = false := hl i (by simp)
    simp only [orbRunTrace, orbRunTick, hrec, Bool.false_eq_true, if_false] at ho
    rcases List.mem_cons.mp ho with h | h
    · rw [h]
    · exact ih kf (fun p hp => hl p (List.mem_cons_of_mem i hp)) o h

/-- Claim C4: on every tick carrying a "record keyframe" command, and on
every subsequent tick until the next recording, the Matcher reads a
reference descriptor set that is exactly the newly recorded snapshot (the
descriptor list of the recording tick's frame) — a complete snapshot, never
a mix of old and new entries. -/
theorem keyframe_snapshot_replacement (m : Nat) (kf0 : List Nat)
    (pre : List TickIn) (cmd : TickIn) (post : List TickIn)
    (hc : cmd.record = true) (hp : ∀ p ∈ post, p.record = false) :
    allRefsEq ((orbRunTrace m kf0 (pre ++ cmd :: post)).drop pre.length)
      cmd.descs := by
  rw [orbRunTrace_append]
  have hlen : (orbRunTrace m kf0 pre).length = pre.length :=
    orbRunTrace_length m kf0 pre
  rw [← hlen, List.drop_left]
  intro o ho
  simp only [orbRunTrace, orbRunTick, hc, if_true] at ho
  rcases List.mem_cons.mp ho with h | h
  · rw [h]
  · exact orbRunTrace_const m cmd.descs post hp o h

/-- Claim C4, witness: a keyframe recorded on the first tick, read again as
the complete reference set on the following tick. -/
theorem keyframe_snapshot_replacement_w :
    allRefsEq ((orbRunTrace 4 []
        [TickIn.mk [9] true, TickIn.mk [3] false]).drop 0) [9] :=
  keyframe_snapshot_replacement 4 [] [] (TickIn.mk [9] true)
    [TickIn.mk [3] false] rfl (by decide)

theorem writeDescriptors_apply (w h : Nat) (img : Nat → Nat → Nat)
    (pattern : List ((Int × Int) × (Int × Int))) (kps : List (Nat × Nat)) :
    ∀ (sched : List Nat) (buf : Nat → Nat) (j : Nat),
      writeDescriptors w h img pattern kps sched buf j =
        if j ∈ sched then descriptorAt w h img pattern kps j else buf j := by
  intro sched
  induction sched with
  | nil => intro buf j; simp [writeDescriptors]
  | cons i rest ih =>
    intro buf j
    rw [writeDescriptors, ih]
    by_cases hm : j ∈ rest
    · simp [hm]
    · by_cases hij : j = i
      · subst hij
        simp [hm, updateBuf]
      · simp [hm, hij, updateBuf]

/-- Claim C7: the Descriptor Builder is deterministic — two runs on the same
image, sampling pattern, keypoint set and preallocated buffer produce
bit-identical descriptor buffers, whatever order the parallel work items
execute in (each valid execution dispatches each keypoint index exactly
once; slots are disjoint, so no synchronization is needed). -/
theorem descriptor_builder_deterministic (w h : Nat) (img : Nat → Nat → Nat)
    (pattern : List ((Int × Int) × (Int × Int))) (kps : List (Nat × Nat))
    (buf : Nat → Nat) (s1 s2 : List Nat)
    (h1 : s1.Perm (List.range kps.length))
    (h2 : s2.Perm (List.range kps.length)) :
    writeDescriptors w h img pattern kps s1 buf =
      writeDescriptors w h img pattern kps s2 buf := by
  funext j
  rw [writeDescriptors_apply, writeDescriptors_apply]
  by_cases hj : j ∈ s1
  · have hj2 : j ∈ s2 := h2.mem_iff.mpr (h1.mem_iff.mp hj)
    rw [if_pos hj, if_pos hj2]
  · have hj2 : j ∉ s2 := fun hc => hj (h1.mem_iff.mpr (h2.mem_iff.mp hc))
    rw [if_neg hj, if_neg hj2]

/-- Claim C7, witness: the two work items of a two-keypoint set executed in
the two possible orders. -/
theorem descriptor_builder_deterministic_w :
    writeDescriptors 4 4 (fun x y => x + y) [((0, 0), (1, 0))]
        [(1, 1), (2, 2)] [0, 1] (fun _ => 0) =
      writeDescriptors 4 4 (fun x y => x + y) [((0, 0), (1, 0))]
        [(1, 1), (2, 2)] [1, 0] (fun _ => 0) :=
  descriptor_builder_deterministic 4 4 (fun x y => x + y) [((0, 0), (1, 0))]
    [(1, 1), (2, 2)] (fun _ => 0) [0, 1] [1, 0] (by decide) (by decide)

theorem minNat_eq_left {a b : Nat} (hab : a ≤ b) : minN a b = a := by
  unfold minN; split <;> omega

theorem minNat_eq_right {a b : Nat} (hba : b ≤ a) : minN a b = b := by
  unfold minN; split <;> omega

theorem scanIter_eq (a : Nat → Nat) :
    ∀ (k i : Nat),
      scanIter a k i =
        ∑ j ∈ Finset.range (minN (2 ^ k) (i + 1)), a (i - j) := by
  intro k
  induction k with
  | zero =>
    intro i
    have hmin : minN (2 ^ 0) (i + 1) = 1 :=
      minNat_eq_left (by omega)
    rw [hmin, Finset.sum_range_one, Nat.sub_zero]
    rfl
  | succ k ih =>
    intro i
    have hunfold : scanIter a (k + 1) i =
        scanIter a k i +
          if 2 ^ k ≤ i then scanIter a k (i - 2 ^ k) else 0 := rfl
    rw [hunfold, ih i]
    have hpow : 2 ^ (k + 1) = 2 ^ k + 2 ^ k := by
      rw [pow_succ]; ring
    by_cases hc : 2 ^ k ≤ i
    · rw [if_pos hc, ih (i - 2 ^ k)]
      have hmin1 : minN (2 ^ k) (i + 1) = 2 ^ k :=
        minNat_eq_left (by omega)
      have hsplit : minN (2 ^ (k + 1)) (i + 1) =
          2 ^ k + minN (2 ^ k) (i - 2 ^ k + 1) := by
        rcases Nat.le_total (i + 1) (2 ^ (k + 1)) with hle | hle
        · rw [minNat_eq_right hle, minNat_eq_right (by omega)]
          omega
        · rw [minNat_eq_left hle, minNat_eq_left (by omega)]
          omega
      rw [hmin1, hsplit]
      conv_rhs => rw [Finset.range_eq_Ico]
      rw [← Finset.sum_Ico_consecutive (fun j => a (i - j))
        (Nat.zero_le (2 ^ k))
        (Nat.le_add_right (2 ^ k) (minN (2 ^ k) (i - 2 ^ k + 1)))]
      congr 1
      · rw [Finset.range_eq_Ico]
      · rw [Finset.sum_Ico_eq_sum_range]
        have hm : 2 ^ k + minN (2 ^ k) (i - 2 ^ k + 1) - 2 ^ k =
            minN (2 ^ k) (i - 2 ^ k + 1) := by omega
        rw [hm]
        refine Finset.sum_congr rfl ?_
        intro j hj
        congr 1
        omega
    · rw [if_neg hc]
      have h1 : minN (2 ^ k) (i + 1) = i + 1 :=
        minNat_eq_right (by omega)
      have h2 : minN (2 ^ (k + 1)) (i + 1) = i + 1 :=
        minNat_eq_right (by omega)
      rw [h1, h2, Nat.add_zero]

theorem hillisSteeleScan_eq_sum (n : Nat) (a : Nat → Nat) (i : Nat)
    (hi : i < n) :
    hillisSteeleScan n a i = ∑ j ∈ Finset.range (i + 1), a j := by
  rw [hillisSteeleScan, scanIter_eq]
  have hle : i + 1 ≤ 2 ^ Nat.clog 2 n :=
    Nat.le_trans hi (Nat.le_pow_clog (by norm_num) n)
  rw [minNat_eq_right hle]
  have hrefl := Finset.sum_range_reflect a (i + 1)
  simpa using hrefl

/-- Claim C2: for every (blurred) input image, the doubling-offset
prefix-sum passes of the Integral Image Builder produce, at every in-bounds
coordinate `(x, y)`, exactly the brute-force sum of all source values at
coordinates `(x2, y2)` with `x2 ≤ x` and `y2 ≤ y`. -/
theorem integral_image_correct (w h : Nat) (img : Nat → Nat → Nat)
    (x y : Nat) (hx : x < w) (hy : y < h) :
    integralImage w h img x y = bruteForceSAT img x y := by
  simp only [integralImage, bruteForceSAT]
  rw [hillisSteeleScan_eq_sum h _ y hy]
  have hrow : ∀ y2, hillisSteeleScan w (fun x2 => img x2 y2) x =
      ∑ x2 ∈ Finset.range (x + 1), img x2 y2 := fun y2 =>
    hillisSteeleScan_eq_sum w (fun x2 => img x2 y2) x hx
  rw [Finset.sum_congr rfl (fun y2 _ => hrow y2)]
  exact Finset.sum_comm

/-- Claim C2, witness: the 2 × 2 image `img x y = x + 2 * y`, evaluated at
the corner `(1, 1)`. -/
theorem integral_image_correct_w :
    integralImage 2 2 (fun x y => x + 2 * y) 1 1 =
      bruteForceSAT (fun x y => x + 2 * y) 1 1 :=
  integral_image_correct 2 2 (fun x y => x + 2 * y) 1 1 (by decide) (by decide)

end Orb
